import Mathlib

/-
Verification of the sensitivity-analysis core of the repository
(idaes/apps/uncertainty_propagation/sens.py): a shallow embedding of
SensitivityInterface.setup_sensitivity, SensitivityInterface.perturb_parameters,
sensitivity_calculation and the k_aug artifact relocation, together with
theorems settling the frozen claims about them.

Modelling conventions:
  - numeric values are Int (the claims under test are order/bookkeeping facts,
    not floating-point facts);
  - a scalar Pyomo vardata/paramdata is identified by an EntId: entities of the
    user's model are Sum.inl n, entities created by setup_sensitivity for list
    entry i at container index idx are Sum.inr (i, idx) (idx = none models the
    _NotAnIndex sentinel used for scalar components);
  - Python dict-valued suffixes are association lists with first-match lookup,
    writes prepend (so the latest write wins);
  - Python exceptions are Except.error with the source's message;
  - external solver invocations are opaque: the driver records which solvers
    are invoked, in order, and does not model their numeric effect.
-/

namespace SensTb

/-- Identifier of one scalar model entity (a Pyomo vardata or paramdata).
Entities already present in the user's model are Sum.inl n; entities created by
setup_sensitivity for the list entry of index i at container index idx are
Sum.inr (i, idx), with idx = none standing for the _NotAnIndex sentinel. -/
abbrev EntId : Type := Nat ⊕ (Nat × Option Nat)

/-- Key of a suffix (annotation) entry: a model entity (Sum.inl), or the
1-based index of a pinning constraint of the paramConst list (Sum.inr). -/
abbrev SKey : Type := EntId ⊕ Nat

/-- First-match association lookup, modelling Python dict access. -/
def alookup {α β : Type} [DecidableEq α] : List (α × β) → α → Option β
  | [], _ => none
  | kv :: rest, x => if x = kv.1 then some kv.2 else alookup rest x

/-- Pointwise update of a total map. -/
def upd {β : Type} (f : EntId → β) (k : EntId) (v : β) : EntId → β :=
  fun x => if x = k then v else f x

/-- Sequence of pointwise writes, left to right (later writes win). -/
def writeKeys {β : Type} (wr : List (EntId × β)) (f : EntId → β) : EntId → β :=
  wr.foldl (fun acc kv => upd acc kv.1 kv.2) f

/-- Expression tree of the host modelling framework, restricted to the node
kinds the rewriter distinguishes. The named constructor stands for a Pyomo
named Expression node, which ExpressionReplacementVisitor inlines because the
source passes remove_named_expressions=True (source lines 293-296). -/
inductive Expr : Type
  | const (c : Int)
  | paramRef (p : EntId)
  | varRef (v : EntId)
  | add (a b : Expr)
  | sub (a b : Expr)
  | mul (a b : Expr)
  | named (e : Expr)
  deriving DecidableEq

/-- Evaluation of an expression under a parameter valuation pv and a variable
valuation vv. -/
def evalE (pv vv : EntId → Int) : Expr → Int
  | .const c => c
  | .paramRef p => pv p
  | .varRef v => vv v
  | .add a b => evalE pv vv a + evalE pv vv b
  | .sub a b => evalE pv vv a - evalE pv vv b
  | .mul a b => evalE pv vv a * evalE pv vv b
  | .named e => evalE pv vv e

/-- The ExpressionReplacementVisitor built at source lines 293-296: replace
each parameter reference found in the substitution map by its paired variable
and inline named expression nodes. -/
def replaceParams (sub : List (EntId × EntId)) : Expr → Expr
  | .const c => .const c
  | .paramRef p =>
      match alookup sub p with
      | some v => .varRef v
      | none => .paramRef p
  | .varRef v => .varRef v
  | .add a b => .add (replaceParams sub a) (replaceParams sub b)
  | .sub a b => .sub (replaceParams sub a) (replaceParams sub b)
  | .mul a b => .mul (replaceParams sub a) (replaceParams sub b)
  | .named e => replaceParams sub e

/-- An objective of the working model. -/
structure Objective : Type where
  expr : Expr
  active : Bool
  deriving DecidableEq

/-- A constraint of the working model: body with optional lower/upper bound
expressions and an equality flag, plus the active flag toggled by deactivate. -/
structure Constr : Type where
  body : Expr
  lower : Option Expr
  upper : Option Expr
  equality : Bool
  active : Bool
  deriving DecidableEq

/-- One entry of the shadow constraint list (block.constList); for an entry
built from a relational expression lhs <= rhs, lower holds lhs and body holds
rhs. -/
structure ShadowCon : Type where
  lower : Option Expr
  body : Expr
  upper : Option Expr
  equality : Bool
  deriving DecidableEq

/-- Satisfaction of a shadow constraint under the given valuations. -/
def ShadowCon.satB (pv vv : EntId → Int) (s : ShadowCon) : Bool :=
  (match s.lower with
   | some lo =>
       if s.equality then evalE pv vv lo == evalE pv vv s.body
       else decide (evalE pv vv lo ≤ evalE pv vv s.body)
   | none => true) &&
  (match s.upper with
   | some up =>
       if s.equality then evalE pv vv s.body == evalE pv vv up
       else decide (evalE pv vv s.body ≤ evalE pv vv up)
   | none => true)

/-- Satisfaction of an original model constraint under the given valuations. -/
def Constr.satB (pv vv : EntId → Int) (c : Constr) : Bool :=
  (match c.lower with
   | some lo =>
       if c.equality then evalE pv vv lo == evalE pv vv c.body
       else decide (evalE pv vv lo ≤ evalE pv vv c.body)
   | none => true) &&
  (match c.upper with
   | some up =>
       if c.equality then evalE pv vv c.body == evalE pv vv up
       else decide (evalE pv vv c.body ≤ evalE pv vv up)
   | none => true)

/-- The constraint obtained from c by rewriting body and bounds with the
substitution map: the original constraint with each designated parameter
replaced by its paired variable. -/
def substCon (sub : List (EntId × EntId)) (c : Constr) : Constr :=
  { c with
    body := replaceParams sub c.body,
    lower := c.lower.map (replaceParams sub),
    upper := c.upper.map (replaceParams sub) }

/-- Constraint rewriting step of setup_sensitivity (source lines 318-339).
For an equality or a one-sided inequality, one rewritten entry is installed.
For a ranged (two-sided) inequality the source rewrites body, lower and upper
and installs two one-sided entries: first new_lower <= new_upper (source line
336, under the comment about the lower bound) and then new_upper >= new_body
(source line 339), i.e. new_body <= new_upper. -/
def rewriteCon (sub : List (EntId × EntId)) (c : Constr) : List ShadowCon :=
  if c.equality then
    [{ lower := c.lower.map (replaceParams sub), body := replaceParams sub c.body,
       upper := c.upper.map (replaceParams sub), equality := true }]
  else
    match c.lower, c.upper with
    | some lo, some up =>
        [{ lower := some (replaceParams sub lo), body := replaceParams sub up,
           upper := none, equality := false },
         { lower := none, body := replaceParams sub c.body,
           upper := some (replaceParams sub up), equality := false }]
    | some lo, none =>
        [{ lower := some (replaceParams sub lo), body := replaceParams sub c.body,
           upper := none, equality := false }]
    | none, up =>
        [{ lower := none, body := replaceParams sub c.body,
           upper := up.map (replaceParams sub), equality := false }]

/-- One entry of the user-supplied paramList, already resolved onto the
working model and flattened the way _generate_component_items flattens it:
each item is (container index, entity id), with index none for a scalar
component. Values and fixed flags live in the model maps. -/
inductive Entry : Type
  | par (mutFlag : Bool) (items : List (Option Nat × Nat))
  | var (items : List (Option Nat × Nat))
  deriving DecidableEq

/-- Whether the entry has ctype Param (the test at source line 284). -/
def entryIsParam : Entry → Bool
  | .par _ _ => true
  | .var _ => false

/-- One tuple of block._sens_data_list: (vardata, paramdata, list index,
container index); the first slot always holds the free entity, the second the
parameter-valued entity. -/
structure SensRecord : Type where
  varId : EntId
  paramId : EntId
  listIdx : Nat
  compIdx : Option Nat
  deriving DecidableEq

/-- The suffix (annotation) maps declared by _add_sensitivity_suffixes; the
directions of source lines 59-79 are not modelled since no claim reads them.
Declaration is idempotent in the source (a component with the same name is
kept as-is), which the embedding mirrors by keeping one Suffixes value on the
model for its whole lifetime. -/
structure Suffixes : Type where
  sens_state_0 : List (SKey × Nat)
  sens_state_1 : List (SKey × Nat)
  sens_init_constr : List (SKey × Nat)
  sens_state_value_1 : List (SKey × Int)
  dcdp : List (SKey × Nat)
  DeltaP : List (SKey × Int)
  deriving DecidableEq

/-- The _SENSITIVITY_TOOLBOX_DATA block. pyattrs is the table of plain Python
attributes set on the block object (setup stores the flag under the name
_has_replaced_expressions, source line 215); paramConst holds the pinning
constraints, each meaning expr == 0. -/
structure SensBlock : Type where
  pyattrs : List (String × Bool)
  sens_data_list : List SensRecord
  paramListStored : List Entry
  objList : List Expr
  constList : Option (List ShadowCon)
  paramConst : List Expr
  deriving DecidableEq

/-- The working model instance. -/
structure Model : Type where
  varVal : EntId → Int
  varFixed : EntId → Bool
  paramVal : EntId → Int
  objectives : List Objective
  constraints : List Constr
  block : Option SensBlock
  suffixes : Suffixes

def mutableMsg : String :=
  "Parameters within paramList must be mutable."

def fixedMsg : String :=
  "Specified parameter variables must be fixed."

def reuseMsg : String :=
  "Re-using sensitivity interface is not supported when calculating sensitivity for mutable parameters. Used fixed vars instead if you want to do this."

def lengthMsg : String :=
  "Length of paramList argument does not equal length of perturbList"

def attrMsg : String :=
  "AttributeError: SensitivityInterface object has no sensitivity block"

def indexMsg : String :=
  "IndexError: list index out of range"

def keyConMsg : String :=
  "KeyError: paramConst has no entry for this index"

def typeMsg : String :=
  "TypeError: cannot evaluate an indexed component"

def keyPtbMsg : String :=
  "KeyError: perturbation has no entry for this index"

/-- Existing-block check of setup_sensitivity (source lines 196-210): if a
block exists and hasattr(existing_block, 'has_replaced_expressions') holds with
the flag false, re-fix the recorded variables and delete the block, otherwise
raise. The probe is reproduced verbatim: the attribute actually set at source
line 215 is named _has_replaced_expressions with a leading underscore, so for
blocks that setup itself builds the probe fails and the raise branch is taken. -/
def checkExisting (m0 : Model) : Except String Model :=
  match m0.block with
  | none => .ok m0
  | some b =>
      match alookup b.pyattrs "has_replaced_expressions" with
      | some flag =>
          if flag then .error reuseMsg
          else
            .ok { m0 with
                  varFixed := writeKeys (b.sens_data_list.map fun r => (r.varId, true)) m0.varFixed,
                  block := none }
      | none => .error reuseMsg

/-- Processing of one paramList entry (source lines 224-275): a Param entry
must be mutable and yields a fresh variable per element, each element holding
the parameter element's current value; a Var entry must be fixed elementwise
and yields a fresh mutable parameter per element, each element holding the
variable element's current value. One SensRecord is appended per element. -/
def processEntry (i : Nat) (e : Entry) (m : Model) : Except String (Model × List SensRecord) :=
  match e with
  | .par mutFlag items =>
      if mutFlag then
        .ok ({ m with
               varVal := writeKeys
                 (items.map fun it => ((Sum.inr (i, it.1) : EntId), m.paramVal (Sum.inl it.2)))
                 m.varVal },
             items.map fun it =>
               { varId := Sum.inr (i, it.1), paramId := Sum.inl it.2,
                 listIdx := i, compIdx := it.1 })
      else .error mutableMsg
  | .var items =>
      if items.all fun it => m.varFixed (Sum.inl it.2) then
        .ok ({ m with
               paramVal := writeKeys
                 (items.map fun it => ((Sum.inr (i, it.1) : EntId), m.varVal (Sum.inl it.2)))
                 m.paramVal },
             items.map fun it =>
               { varId := Sum.inl it.2, paramId := Sum.inr (i, it.1),
                 listIdx := i, compIdx := it.1 })
      else .error fixedMsg

/-- The enumerate(paramList) loop of source line 224, threading the model and
concatenating the per-entry record lists. -/
def processEntries : Nat → List Entry → Model → Except String (Model × List SensRecord)
  | _, [], m => .ok (m, [])
  | i, e :: rest, m =>
      match processEntry i e m with
      | .error s => .error s
      | .ok (m1, ra) =>
          match processEntries (i + 1) rest m1 with
          | .error s => .error s
          | .ok (m2, rb) => .ok (m2, ra ++ rb)

/-- variableSubMap of source lines 282-284: original paramdata to substitute
vardata, restricted to records whose paramList entry has ctype Param. -/
def subMap (pl : List Entry) (recs : List SensRecord) : List (EntId × EntId) :=
  recs.filterMap fun r =>
    match pl.get? r.listIdx with
    | some e => if entryIsParam e then some (r.paramId, r.varId) else none
    | none => none

/-- Deactivation of every active objective (source line 308). -/
def deactObjs (l : List Objective) : List Objective :=
  l.map fun o => if o.active then { o with active := false } else o

/-- Deactivation of every active constraint (source line 340). -/
def deactCons (l : List Constr) : List Constr :=
  l.map fun c => if c.active then { c with active := false } else c

/-- The rewritten objectives cloned onto the block (source lines 302-308). -/
def shadowObjsOf (sub : List (EntId × EntId)) (l : List Objective) : List Expr :=
  (l.filter fun o => o.active).map fun o => replaceParams sub o.expr

def flat {α : Type} : List (List α) → List α
  | [] => []
  | l :: ls => l ++ flat ls

/-- The shadow constraint list built at source lines 317-339 from every active
constraint. -/
def shadowConsOf (sub : List (EntId × EntId)) (l : List Constr) : List ShadowCon :=
  flat ((l.filter fun c => c.active).map (rewriteCon sub))

/-- The pinning constraints block.paramConst (source lines 345-348): one
var - param == 0 equality per record, in record order. -/
def pins (recs : List SensRecord) : List Expr :=
  recs.map fun r => Expr.sub (Expr.varRef r.varId) (Expr.paramRef r.paramId)

/-- Re-fix or unfix helper: the unfix loop of source lines 277-279 writes
false at every record's free entity. -/
def unfixAll (recs : List SensRecord) (m : Model) : Model :=
  { m with varFixed := writeKeys (recs.map fun r => (r.varId, false)) m.varFixed }

/-- The suffix-stamping loop of source lines 353-363: for the record at
0-based position i, idx = i+1 is written to sens_state_0[var],
sens_state_1[var], sens_init_constr[con] and dcdp[con], where con is the
idx-th pinning constraint. -/
def stampLoop : Nat → List SensRecord → Suffixes → Suffixes
  | _, [], s => s
  | i, r :: rest, s =>
      stampLoop (i + 1) rest
        { s with
          sens_state_0 := (Sum.inl r.varId, i + 1) :: s.sens_state_0,
          sens_state_1 := (Sum.inl r.varId, i + 1) :: s.sens_state_1,
          sens_init_constr := ((Sum.inr (i + 1) : SKey), i + 1) :: s.sens_init_constr,
          dcdp := ((Sum.inr (i + 1) : SKey), i + 1) :: s.dcdp }

/-- The fresh block attached to the instance: attribute table, record list,
stored paramList, shadow objectives, shadow constraint list (present only when
rewriting ran) and pinning constraints. -/
def builtBlock (pl : List Entry) (recs : List SensRecord) (flag : Bool)
    (objL : List Expr) (conL : Option (List ShadowCon)) : SensBlock :=
  { pyattrs := [("_has_replaced_expressions", flag)],
    sens_data_list := recs,
    paramListStored := pl,
    objList := objL,
    constList := conL,
    paramConst := pins recs }

/-- Tail of setup_sensitivity after the entry loop (source lines 277-363):
unfix every recorded free entity, rewrite objectives and constraints only when
variableSubMap is non-empty (setting the replaced-expressions flag in that
case), then append the pinning constraints and stamp the suffixes. -/
def finishSetup (pl : List Entry) (m1 : Model) (recs : List SensRecord) : Model :=
  if (subMap pl recs).isEmpty then
    { unfixAll recs m1 with
      suffixes := stampLoop 0 recs m1.suffixes,
      block := some (builtBlock pl recs false [] none) }
  else
    { unfixAll recs m1 with
      objectives := deactObjs m1.objectives,
      constraints := deactCons m1.constraints,
      suffixes := stampLoop 0 recs m1.suffixes,
      block := some (builtBlock pl recs true
        (shadowObjsOf (subMap pl recs) m1.objectives)
        (some (shadowConsOf (subMap pl recs) m1.constraints))) }

/-- SensitivityInterface.setup_sensitivity (source lines 180-363), for the
cloneModel=False case in which paramList needs no translation. The raise of
the existing-block check happens before any model mutation, so an error result
leaves the instance exactly as it was. -/
def setup_sensitivity (m0 : Model) (paramList : List Entry) : Except String Model :=
  match checkExisting m0 with
  | .error e => .error e
  | .ok m =>
      match processEntries 0 paramList m with
      | .error e => .error e
      | .ok (m1, recs) => .ok (finishSetup paramList m1 recs)

/-- One entry of the user's perturbList: a scalar value or an indexed
component of values. -/
inductive Perturbation : Type
  | scalar (v : Int)
  | indexed (vals : List (Nat × Int))
  deriving DecidableEq

/-- Resolution of the perturbation value for one record (source lines
382-390): an unindexed record takes value(perturbList[list_idx]); an indexed
record tries perturbList[list_idx][comp_idx] and falls back to the scalar
value when subscripting raises TypeError. A missing index of an indexed entry
raises KeyError, which the source does not catch; value() of a whole indexed
component raises TypeError, also uncaught. -/
def resolvePtb (p : Perturbation) (compIdx : Option Nat) : Except String Int :=
  match compIdx with
  | none =>
      match p with
      | .scalar v => .ok v
      | .indexed _ => .error typeMsg
  | some k =>
      match p with
      | .scalar v => .ok v
      | .indexed vals =>
          match alookup vals k with
          | some v => .ok v
          | none => .error keyPtbMsg

/-- The perturbation loop of source lines 380-399: for the record at 0-based
position i, con = paramConst[i+1] (KeyError when absent), the resolved value
ptb is written to sens_state_value_1[var], and value(var - ptb), i.e. the
free entity's current value minus ptb, is written to DeltaP[con]. -/
def perturbLoop (vv : EntId → Int) (pL : List Perturbation) (nC : Nat) :
    Nat → List SensRecord → Suffixes → Except String Suffixes
  | _, [], s => .ok s
  | i, r :: rest, s =>
      if i + 1 ≤ nC then
        match pL.get? r.listIdx with
        | none => .error indexMsg
        | some p =>
            match resolvePtb p r.compIdx with
            | .error e => .error e
            | .ok ptb =>
                perturbLoop vv pL nC (i + 1) rest
                  { s with
                    sens_state_value_1 := (Sum.inl r.varId, ptb) :: s.sens_state_value_1,
                    DeltaP := ((Sum.inr (i + 1) : SKey), vv r.varId - ptb) :: s.DeltaP }
      else .error keyConMsg

/-- SensitivityInterface.perturb_parameters (source lines 366-399): requires a
block, compares len(block._paramList) with len(perturbList) (raising on
mismatch, source lines 375-378), then runs the perturbation loop. -/
def perturb_parameters (m : Model) (perturbList : List Perturbation) : Except String Model :=
  match m.block with
  | none => .error attrMsg
  | some b =>
      if b.paramListStored.length ≠ perturbList.length then .error lengthMsg
      else
        match perturbLoop m.varVal perturbList b.paramConst.length 0 b.sens_data_list m.suffixes with
        | .error e => .error e
        | .ok s => .ok { m with suffixes := s }

/-- The driver sensitivity_calculation (source lines 105-153): setup, then for
method kaug a baseline ipopt solve and a k_aug solve (source lines 112-123)
BEFORE perturb_parameters (source line 124), then the sensitivity solve
(ipopt_sens for sipopt, dot_sens for kaug). Solver invocations are recorded in
order in the first component; their numeric effect is external and not
modelled. The k_aug artifact relocation is modelled separately on a file
system state (moveLoop below). -/
def sensitivity_calculation (method : String) (m : Model) (paramList : List Entry)
    (perturbList : List Perturbation) : List String × Except String Model :=
  match setup_sensitivity m paramList with
  | .error e => ([], .error e)
  | .ok m1 =>
      if method = "kaug" then
        match perturb_parameters m1 perturbList with
        | .error e => (["ipopt", "k_aug"], .error e)
        | .ok m2 => (["ipopt", "k_aug", "dot_sens"], .ok m2)
      else
        match perturb_parameters m1 perturbList with
        | .error e => ([], .error e)
        | .ok m2 => if method = "sipopt" then (["ipopt_sens"], .ok m2) else ([], .ok m2)

/-- The nine artifact files moved at source lines 142-150, in source order. -/
def dsdp_files : List String :=
  ["dsdp_in_.in", "col_row.nl", "col_row.col", "col_row.row", "conorder.txt",
   "delta_p.out", "dot_out.out", "timings_dot_driver_dsdp.txt", "timings_k_aug_dsdp.txt"]

/-- Working directory and dsdp subdirectory contents. -/
structure Fs : Type where
  cwd : List String
  dsdp : List String
  deriving DecidableEq

/-- The body of the try block at source lines 141-150: shutil.move each file
in turn into ./dsdp/; moving a missing file raises an OSError, which aborts
the remaining moves. The Bool records whether an exception was raised. -/
def moveLoop : Fs → List String → Fs × Bool
  | fs, [] => (fs, false)
  | fs, n :: rest =>
      if n ∈ fs.cwd then moveLoop { cwd := fs.cwd.erase n, dsdp := n :: fs.dsdp } rest
      else (fs, true)

/-- The whole try/except OSError: pass region (source lines 141-152): the
exception, if any, is swallowed and the partially moved state is kept. -/
def relocateArtifacts (fs : Fs) : Fs :=
  (moveLoop fs dsdp_files).1

def emptySfx : Suffixes :=
  { sens_state_0 := [], sens_state_1 := [], sens_init_constr := [],
    sens_state_value_1 := [], dcdp := [], DeltaP := [] }

def emptyModel : Model :=
  { varVal := fun _ => 0, varFixed := fun _ => false, paramVal := fun _ => 0,
    objectives := [], constraints := [], block := none, suffixes := emptySfx }

def defaultBlock : SensBlock :=
  { pyattrs := [], sens_data_list := [], paramListStored := [],
    objList := [], constList := none, paramConst := [] }

/-- Extract the model of a successful result, with a fallback. -/
def okOr (d : Model) : Except String Model → Model
  | .ok m => m
  | .error _ => d

/-- Extract the sensitivity block of a successful result, with a fallback. -/
def blockOf (r : Except String Model) : SensBlock :=
  match r with
  | .ok m => m.block.getD defaultBlock
  | .error _ => defaultBlock

/-- Whether a call raised. -/
def isErr {α : Type} : Except String α → Bool
  | .error _ => true
  | .ok _ => false

/-- A Param entry that fails the mutability check of source lines 226-230. -/
def entryBadPar : Entry → Bool
  | .par mutFlag _ => !mutFlag
  | .var _ => false

/-- A Var entry with an element failing the fixedness check of source lines
251-257, relative to the given fixed map. -/
def entryBadVar (fixedMap : EntId → Bool) : Entry → Bool
  | .par _ _ => false
  | .var items => !(items.all fun it => fixedMap (Sum.inl it.2))

/-- An entry passing its check of source lines 224-275. -/
def entryGood (fixedMap : EntId → Bool) : Entry → Bool
  | .par mutFlag _ => mutFlag
  | .var items => items.all fun it => fixedMap (Sum.inl it.2)

/-- Demo model: one scalar mutable parameter p (entity 0) of value 5, and one
scalar fixed variable y (entity 1) of value 2. -/
def demoM : Model :=
  { varVal := fun k => if k = Sum.inl 1 then 2 else 0,
    varFixed := fun k => decide (k = Sum.inl 1),
    paramVal := fun k => if k = Sum.inl 0 then 5 else 0,
    objectives := [], constraints := [], block := none, suffixes := emptySfx }

/-- Designate p, then y. -/
def demoPl : List Entry :=
  [Entry.par true [(Option.none, 0)], Entry.var [(Option.none, 1)]]

/-- The record built for p: fresh variable, original parameter. -/
def demoRec0 : SensRecord :=
  { varId := Sum.inr (0, Option.none), paramId := Sum.inl 0,
    listIdx := 0, compIdx := Option.none }

/-- The record built for y: original variable, fresh parameter. -/
def demoRec1 : SensRecord :=
  { varId := Sum.inl 1, paramId := Sum.inr (1, Option.none),
    listIdx := 1, compIdx := Option.none }

/-- The model demoM after setup. -/
def demoSetup : Model :=
  okOr emptyModel (setup_sensitivity demoM demoPl)

/-- Perturb p to 7 and y to 9. -/
def demoPtb : List Perturbation :=
  [Perturbation.scalar 7, Perturbation.scalar 9]

/-- Demo for the ranged-constraint rewrite: the constraint 1 <= p <= 10 with
the scalar mutable parameter p (entity 0) of value 5 designated. -/
def demoRangedCon : Constr :=
  { body := Expr.paramRef (Sum.inl 0), lower := some (Expr.const 1),
    upper := some (Expr.const 10), equality := false, active := true }

def demoRangedM : Model :=
  { varVal := fun _ => 0,
    varFixed := fun _ => false,
    paramVal := fun k => if k = Sum.inl 0 then 5 else 0,
    objectives := [], constraints := [demoRangedCon], block := none, suffixes := emptySfx }

def demoRangedPl : List Entry :=
  [Entry.par true [(Option.none, 0)]]

/-- The substitution map that setup builds for demoRangedPl. -/
def demoRangedSub : List (EntId × EntId) :=
  [(Sum.inl 0, Sum.inr (0, Option.none))]

/-- An assignment putting the substitute variable at 0, i.e. below the lower
bound 1 of the ranged constraint. -/
def vvLow : EntId → Int := fun _ => 0

def pvZero : EntId → Int := fun _ => 0

/-- Demo for the rebuild claims: a model carrying a sensitivity block exactly
as setup builds it for a single fixed variable, substitution flag false. -/
def demoUnsubM : Model :=
  { varVal := fun _ => 0,
    varFixed := fun k => decide (k = Sum.inl 0),
    paramVal := fun _ => 0,
    objectives := [], constraints := [],
    block := some
      { pyattrs := [("_has_replaced_expressions", false)],
        sens_data_list := [{ varId := Sum.inl 0, paramId := Sum.inr (0, Option.none),
                             listIdx := 0, compIdx := Option.none }],
        paramListStored := [Entry.var [(Option.none, 0)]],
        objList := [], constList := none,
        paramConst := [Expr.sub (Expr.varRef (Sum.inl 0)) (Expr.paramRef (Sum.inr (0, Option.none)))] },
    suffixes := emptySfx }

/-- A block on which expression substitution has occurred: the
replaced-expressions flag is true. -/
def demoSubbedB : SensBlock :=
  { pyattrs := [("_has_replaced_expressions", true)],
    sens_data_list := [],
    paramListStored := [],
    objList := [], constList := some [],
    paramConst := [] }

/-- A model carrying a block whose replaced-expressions flag is true. -/
def demoSubbedM : Model :=
  { demoUnsubM with block := some demoSubbedB }

/-- The sensitivity block built by setup on the demo model. -/
def demoBlock : SensBlock :=
  blockOf (setup_sensitivity demoM demoPl)

/-- Demo for the length-mismatch claims: two fixed scalar variables designated,
three scalar perturbations supplied. -/
def demoMismatchM : Model :=
  { varVal := fun _ => 0,
    varFixed := fun k => decide (k = Sum.inl 0 ∨ k = Sum.inl 1),
    paramVal := fun _ => 0,
    objectives := [], constraints := [], block := none, suffixes := emptySfx }

def demoMismatchPl : List Entry :=
  [Entry.var [(Option.none, 0)], Entry.var [(Option.none, 1)]]

def demoMismatchPtb : List Perturbation :=
  [Perturbation.scalar 1, Perturbation.scalar 2, Perturbation.scalar 3]

/-- Demo entry failing the mutability check. -/
def demoBadPl : List Entry :=
  [Entry.par false [(Option.none, 0)]]

/-- Demo file system for the artifact move: the first artifact file is absent,
two later ones are present. -/
def demoFs : Fs :=
  { cwd := ["col_row.nl", "conorder.txt"], dsdp := [] }

theorem alookup_cons {α β : Type} [DecidableEq α] (kv : α × β) (l : List (α × β)) (x : α) :
    alookup (kv :: l) x = if x = kv.1 then some kv.2 else alookup l x := rfl

theorem writeKeys_cons {β : Type} (a : EntId × β) (wr : List (EntId × β)) (f : EntId → β) :
    writeKeys (a :: wr) f = writeKeys wr (upd f a.1 a.2) := rfl

theorem writeKeys_absent {β : Type} (wr : List (EntId × β)) :
    ∀ (f : EntId → β) (k : EntId), (∀ kv ∈ wr, kv.1 ≠ k) → writeKeys wr f k = f k := by
  induction wr with
  | nil => intro f k _; rfl
  | cons a rest ih =>
      intro f k h
      rw [writeKeys_cons, ih (upd f a.1 a.2) k (fun kv hkv => h kv (List.mem_cons_of_mem a hkv))]
      have ha : k ≠ a.1 := fun hk => h a (List.mem_cons_self a rest) hk.symm
      simp [upd, ha]

theorem writeKeys_mem {β : Type} (wr : List (EntId × β)) :
    ∀ (f : EntId → β) (kv : EntId × β), kv ∈ wr → (wr.map Prod.fst).Nodup →
      writeKeys wr f kv.1 = kv.2 := by
  induction wr with
  | nil => intro f kv h _; cases h
  | cons a rest ih =>
      intro f kv hkv hnd
      rw [List.map_cons, List.nodup_cons] at hnd
      rcases List.mem_cons.mp hkv with heq | hmem
      · subst heq
        rw [writeKeys_cons]
        rw [writeKeys_absent rest (upd f kv.1 kv.2) kv.1
          (fun kv2 hkv2 heq2 => hnd.1 (heq2 ▸ List.mem_map_of_mem Prod.fst hkv2))]
        simp [upd]
      · rw [writeKeys_cons]
        exact ih (upd f a.1 a.2) kv hmem hnd.2

theorem writeKeys_constVal {β : Type} (wr : List (EntId × β)) :
    ∀ (f : EntId → β) (v : β) (k : EntId), (∀ kv ∈ wr, kv.2 = v) → k ∈ wr.map Prod.fst →
      writeKeys wr f k = v := by
  induction wr with
  | nil => intro f v k _ hk; cases hk
  | cons a rest ih =>
      intro f v k hv hk
      rw [writeKeys_cons]
      rcases Classical.em (k ∈ rest.map Prod.fst) with hmem | hmem
      · exact ih (upd f a.1 a.2) v k (fun kv h => hv kv (List.mem_cons_of_mem a h)) hmem
      · have hka : k = a.1 := by
          rcases List.mem_map.mp hk with ⟨kv, hkv, hfst⟩
          rcases List.mem_cons.mp hkv with h1 | h2
          · rw [← hfst, h1]
          · exact absurd (hfst ▸ List.mem_map_of_mem Prod.fst h2) hmem
        rw [writeKeys_absent rest (upd f a.1 a.2) k
          (fun kv2 hkv2 heq2 => hmem (heq2 ▸ List.mem_map_of_mem Prod.fst hkv2))]
        subst hka
        simp only [upd, if_pos rfl]
        exact hv a (List.mem_cons_self a rest)

theorem processEntry_frame (i : Nat) (e : Entry) (m ma : Model) (ra : List SensRecord)
    (h : processEntry i e m = .ok (ma, ra)) :
    ma.varFixed = m.varFixed ∧ ma.objectives = m.objectives ∧ ma.constraints = m.constraints ∧
    ma.block = m.block ∧ ma.suffixes = m.suffixes ∧
    (∀ n, ma.varVal (Sum.inl n) = m.varVal (Sum.inl n)) ∧
    (∀ n, ma.paramVal (Sum.inl n) = m.paramVal (Sum.inl n)) ∧
    (∀ j idx, j ≠ i → ma.varVal (Sum.inr (j, idx)) = m.varVal (Sum.inr (j, idx))) ∧
    (∀ j idx, j ≠ i → ma.paramVal (Sum.inr (j, idx)) = m.paramVal (Sum.inr (j, idx))) := by
  cases e with
  | par mutFlag items =>
      simp only [processEntry] at h
      split at h
      · injection h with h2
        injection h2 with hM hR
        subst hM
        refine ⟨rfl, rfl, rfl, rfl, rfl, ?_, fun n => rfl, ?_, fun j idx _ => rfl⟩
        · intro n
          exact writeKeys_absent _ _ _ (by
            intro kv hkv
            rcases List.mem_map.mp hkv with ⟨it, _, hit⟩
            rw [← hit]
            simp)
        · intro j idx hj
          exact writeKeys_absent _ _ _ (by
            intro kv hkv
            rcases List.mem_map.mp hkv with ⟨it, _, hit⟩
            rw [← hit]
            simp
            intro hji
            exact absurd hji.symm hj)
      · cases h
  | var items =>
      simp only [processEntry] at h
      split at h
      · injection h with h2
        injection h2 with hM hR
        subst hM
        refine ⟨rfl, rfl, rfl, rfl, rfl, fun n => rfl, ?_, fun j idx _ => rfl, ?_⟩
        · intro n
          exact writeKeys_absent _ _ _ (by
            intro kv hkv
            rcases List.mem_map.mp hkv with ⟨it, _, hit⟩
            rw [← hit]
            simp)
        · intro j idx hj
          exact writeKeys_absent _ _ _ (by
            intro kv hkv
            rcases List.mem_map.mp hkv with ⟨it, _, hit⟩
            rw [← hit]
            simp
            intro hji
            exact absurd hji.symm hj)
      · cases h

theorem processEntries_frame (es : List Entry) :
    ∀ (i : Nat) (m m2 : Model) (recs : List SensRecord),
      processEntries i es m = .ok (m2, recs) →
      m2.varFixed = m.varFixed ∧ m2.objectives = m.objectives ∧ m2.constraints = m.constraints ∧
      m2.block = m.block ∧ m2.suffixes = m.suffixes ∧
      (∀ n, m2.varVal (Sum.inl n) = m.varVal (Sum.inl n)) ∧
      (∀ n, m2.paramVal (Sum.inl n) = m.paramVal (Sum.inl n)) ∧
      (∀ j idx, j < i → m2.varVal (Sum.inr (j, idx)) = m.varVal (Sum.inr (j, idx))) ∧
      (∀ j idx, j < i → m2.paramVal (Sum.inr (j, idx)) = m.paramVal (Sum.inr (j, idx))) := by
  induction es with
  | nil =>
      intro i m m2 recs h
      injection h with h2
      injection h2 with hM hR
      subst hM
      exact ⟨rfl, rfl, rfl, rfl, rfl, fun n => rfl, fun n => rfl,
        fun j idx _ => rfl, fun j idx _ => rfl⟩
  | cons e rest ih =>
      intro i m m2 recs h
      simp only [processEntries] at h
      cases h1 : processEntry i e m with
      | error s => rw [h1] at h; cases h
      | ok p =>
          obtain ⟨m1, ra⟩ := p
          simp only [h1] at h
          cases h2 : processEntries (i + 1) rest m1 with
          | error s => simp only [h2] at h; cases h
          | ok q =>
              obtain ⟨mq, rb⟩ := q
              simp only [h2] at h
              injection h with h3
              injection h3 with hM hR
              subst hM
              obtain ⟨f1, f2, f3, f4, f5, f6, f7, f8, f9⟩ := processEntry_frame i e m m1 ra h1
              obtain ⟨g1, g2, g3, g4, g5, g6, g7, g8, g9⟩ := ih (i + 1) m1 mq rb h2
              refine ⟨g1.trans f1, g2.trans f2, g3.trans f3, g4.trans f4, g5.trans f5,
                fun n => (g6 n).trans (f6 n), fun n => (g7 n).trans (f7 n), ?_, ?_⟩
              · intro j idx hj
                exact (g8 j idx (Nat.lt_succ_of_lt hj)).trans (f8 j idx (Nat.ne_of_lt hj))
              · intro j idx hj
                exact (g9 j idx (Nat.lt_succ_of_lt hj)).trans (f9 j idx (Nat.ne_of_lt hj))

theorem processEntries_values (es : List Entry) :
    ∀ (i : Nat) (m m2 : Model) (recs : List SensRecord),
      processEntries i es m = .ok (m2, recs) →
      ((recs.map fun r => (r.listIdx, r.compIdx)).Nodup) →
      ∀ r ∈ recs,
        ((r.varId = Sum.inr (r.listIdx, r.compIdx) ∧ (∃ pid, r.paramId = Sum.inl pid) ∧
            m2.varVal r.varId = m.paramVal r.paramId) ∨
         (r.paramId = Sum.inr (r.listIdx, r.compIdx) ∧ (∃ vid, r.varId = Sum.inl vid) ∧
            m2.paramVal r.paramId = m.varVal r.varId)) := by
  induction es with
  | nil =>
      intro i m m2 recs h _ r hr
      injection h with h2
      injection h2 with hM hR
      rw [← hR] at hr
      cases hr
  | cons e rest ih =>
      intro i m m2 recs h hnd r hr
      simp only [processEntries] at h
      cases h1 : processEntry i e m with
      | error s => rw [h1] at h; cases h
      | ok p =>
          obtain ⟨m1, ra⟩ := p
          simp only [h1] at h
          cases h2 : processEntries (i + 1) rest m1 with
          | error s => simp only [h2] at h; cases h
          | ok q =>
              obtain ⟨mq, rb⟩ := q
              simp only [h2] at h
              injection h with h3
              injection h3 with hM hR
              subst hM
              rw [← hR] at hr hnd
              rw [List.map_append, List.nodup_append] at hnd
              obtain ⟨g1, g2, g3, g4, g5, g6, g7, g8, g9⟩ :=
                processEntries_frame rest (i + 1) m1 mq rb h2
              obtain ⟨f1, f2, f3, f4, f5, f6, f7, f8, f9⟩ :=
                processEntry_frame i e m m1 ra h1
              rcases List.mem_append.mp hr with hra | hrb
              · -- the record comes from the head entry
                cases e with
                | par mutFlag items =>
                    simp only [processEntry] at h1
                    split at h1
                    · injection h1 with h1p
                      injection h1p with hM1 hR1
                      rw [← hR1] at hra hnd
                      rcases List.mem_map.mp hra with ⟨it, hit, hmk⟩
                      have hkeys :
                          (((items.map fun it =>
                              ((Sum.inr (i, it.1) : EntId), m.paramVal (Sum.inl it.2))).map
                            Prod.fst)).Nodup := by
                        have h0 : ((items.map fun it => ((i : Nat), it.1)).Nodup) := by
                          simpa [List.map_map, Function.comp] using hnd.1
                        have h1n := h0.map (Sum.inr_injective
                          (α := Nat) (β := Nat × Option Nat))
                        simpa [List.map_map, Function.comp] using h1n
                      have hval : m1.varVal (Sum.inr (i, it.1)) = m.paramVal (Sum.inl it.2) := by
                        rw [← hM1]
                        exact writeKeys_mem _ m.varVal
                          ((Sum.inr (i, it.1) : EntId), m.paramVal (Sum.inl it.2))
                          (List.mem_map_of_mem _ hit) hkeys
                      left
                      rw [← hmk]
                      refine ⟨rfl, ⟨it.2, rfl⟩, ?_⟩
                      have hfr := g8 i it.1 (Nat.lt_succ_self i)
                      exact hfr.trans hval
                    · cases h1
                | var items =>
                    simp only [processEntry] at h1
                    split at h1
                    · injection h1 with h1p
                      injection h1p with hM1 hR1
                      rw [← hR1] at hra hnd
                      rcases List.mem_map.mp hra with ⟨it, hit, hmk⟩
                      have hkeys :
                          (((items.map fun it =>
                              ((Sum.inr (i, it.1) : EntId), m.varVal (Sum.inl it.2))).map
                            Prod.fst)).Nodup := by
                        have h0 : ((items.map fun it => ((i : Nat), it.1)).Nodup) := by
                          simpa [List.map_map, Function.comp] using hnd.1
                        have h1n := h0.map (Sum.inr_injective
                          (α := Nat) (β := Nat × Option Nat))
                        simpa [List.map_map, Function.comp] using h1n
                      have hval : m1.paramVal (Sum.inr (i, it.1)) = m.varVal (Sum.inl it.2) := by
                        rw [← hM1]
                        exact writeKeys_mem _ m.paramVal
                          ((Sum.inr (i, it.1) : EntId), m.varVal (Sum.inl it.2))
                          (List.mem_map_of_mem _ hit) hkeys
                      right
                      rw [← hmk]
                      refine ⟨rfl, ⟨it.2, rfl⟩, ?_⟩
                      have hfr := g9 i it.1 (Nat.lt_succ_self i)
                      exact hfr.trans hval
                    · cases h1
              · -- the record comes from the remaining entries
                rcases ih (i + 1) m1 mq rb h2 hnd.2.1 r hrb with
                  ⟨hvar, ⟨pid, hpid⟩, hval⟩ | ⟨hpar, ⟨vid, hvid⟩, hval⟩
                · left
                  refine ⟨hvar, ⟨pid, hpid⟩, ?_⟩
                  rw [hval, hpid, f7 pid]
                · right
                  refine ⟨hpar, ⟨vid, hvid⟩, ?_⟩
                  rw [hval, hvid, f6 vid]

theorem stampLoop_frame (l : List SensRecord) :
    ∀ (i : Nat) (s : Suffixes),
      (∀ k, (∀ r ∈ l, (Sum.inl r.varId : SKey) ≠ k) →
        alookup (stampLoop i l s).sens_state_0 k = alookup s.sens_state_0 k ∧
        alookup (stampLoop i l s).sens_state_1 k = alookup s.sens_state_1 k) ∧
      (∀ n, n ≤ i →
        alookup (stampLoop i l s).sens_init_constr (Sum.inr n) =
          alookup s.sens_init_constr (Sum.inr n) ∧
        alookup (stampLoop i l s).dcdp (Sum.inr n) = alookup s.dcdp (Sum.inr n)) := by
  induction l with
  | nil =>
      intro i s
      exact ⟨fun k _ => ⟨rfl, rfl⟩, fun n _ => ⟨rfl, rfl⟩⟩
  | cons r rest ih =>
      intro i s
      have hih := ih (i + 1)
        { s with
          sens_state_0 := (Sum.inl r.varId, i + 1) :: s.sens_state_0,
          sens_state_1 := (Sum.inl r.varId, i + 1) :: s.sens_state_1,
          sens_init_constr := ((Sum.inr (i + 1) : SKey), i + 1) :: s.sens_init_constr,
          dcdp := ((Sum.inr (i + 1) : SKey), i + 1) :: s.dcdp }
      constructor
      · intro k hk
        have hne : (Sum.inl r.varId : SKey) ≠ k := hk r (List.mem_cons_self r rest)
        have hrest := hih.1 k (fun r2 h2 => hk r2 (List.mem_cons_of_mem r h2))
        refine ⟨hrest.1.trans ?_, hrest.2.trans ?_⟩
        · rw [alookup_cons]
          exact if_neg fun he => hne he.symm
        · rw [alookup_cons]
          exact if_neg fun he => hne he.symm
      · intro n hn
        have hrest := hih.2 n (Nat.le_succ_of_le hn)
        have hne : (Sum.inr n : SKey) ≠ Sum.inr (i + 1) := by
          intro he
          injection he with he2
          exact absurd he2 (Nat.ne_of_lt (Nat.lt_succ_of_le hn))
        refine ⟨hrest.1.trans ?_, hrest.2.trans ?_⟩
        · rw [alookup_cons]
          exact if_neg hne
        · rw [alookup_cons]
          exact if_neg hne

theorem stampLoop_get (l : List SensRecord) :
    ∀ (i : Nat) (s : Suffixes) (j : Nat) (hj : j < l.length),
      ((l.map fun r => r.varId).Nodup) →
      alookup (stampLoop i l s).sens_state_0 (Sum.inl (l.get ⟨j, hj⟩).varId) = some (i + j + 1) ∧
      alookup (stampLoop i l s).sens_state_1 (Sum.inl (l.get ⟨j, hj⟩).varId) = some (i + j + 1) ∧
      alookup (stampLoop i l s).sens_init_constr (Sum.inr (i + j + 1)) = some (i + j + 1) ∧
      alookup (stampLoop i l s).dcdp (Sum.inr (i + j + 1)) = some (i + j + 1) := by
  induction l with
  | nil =>
      intro i s j hj
      cases hj
  | cons r rest ih =>
      intro i s j hj hnd
      rw [List.map_cons, List.nodup_cons] at hnd
      cases j with
      | zero =>
          have hfr := stampLoop_frame rest (i + 1)
            { s with
              sens_state_0 := (Sum.inl r.varId, i + 1) :: s.sens_state_0,
              sens_state_1 := (Sum.inl r.varId, i + 1) :: s.sens_state_1,
              sens_init_constr := ((Sum.inr (i + 1) : SKey), i + 1) :: s.sens_init_constr,
              dcdp := ((Sum.inr (i + 1) : SKey), i + 1) :: s.dcdp }
          have hk : ∀ r2 ∈ rest, (Sum.inl r2.varId : SKey) ≠ Sum.inl r.varId := by
            intro r2 h2 he
            injection he with he2
            exact hnd.1 (he2 ▸ List.mem_map_of_mem (fun r => r.varId) h2)
          have h0 := hfr.1 (Sum.inl r.varId) hk
          have h1 := hfr.2 (i + 1) (Nat.le_refl (i + 1))
          refine ⟨h0.1.trans ?_, h0.2.trans ?_, h1.1.trans ?_, h1.2.trans ?_⟩ <;>
            · rw [alookup_cons]
              simp
      | succ j2 =>
          have hj2 : j2 < rest.length := Nat.lt_of_succ_lt_succ hj
          have := ih (i + 1)
            { s with
              sens_state_0 := (Sum.inl r.varId, i + 1) :: s.sens_state_0,
              sens_state_1 := (Sum.inl r.varId, i + 1) :: s.sens_state_1,
              sens_init_constr := ((Sum.inr (i + 1) : SKey), i + 1) :: s.sens_init_constr,
              dcdp := ((Sum.inr (i + 1) : SKey), i + 1) :: s.dcdp } j2 hj2 hnd.2
          have harith : i + 1 + j2 + 1 = i + (j2 + 1) + 1 := by omega
          rw [harith] at this
          exact this

theorem perturbLoop_frame (l : List SensRecord) :
    ∀ (vv : EntId → Int) (pL : List Perturbation) (nC i : Nat) (s s2 : Suffixes),
      perturbLoop vv pL nC i l s = .ok s2 →
      (∀ k, (∀ r ∈ l, (Sum.inl r.varId : SKey) ≠ k) →
        alookup s2.sens_state_value_1 k = alookup s.sens_state_value_1 k) ∧
      (∀ n, n ≤ i → alookup s2.DeltaP (Sum.inr n) = alookup s.DeltaP (Sum.inr n)) := by
  induction l with
  | nil =>
      intro vv pL nC i s s2 h
      injection h with h2
      subst h2
      exact ⟨fun k _ => rfl, fun n _ => rfl⟩
  | cons r rest ih =>
      intro vv pL nC i s s2 h
      simp only [perturbLoop] at h
      split at h
      · cases hp : pL.get? r.listIdx with
        | none => rw [hp] at h; cases h
        | some p =>
            rw [hp] at h
            cases hres : resolvePtb p r.compIdx with
            | error e => simp only [hres] at h; cases h
            | ok ptb =>
                simp only [hres] at h
                obtain ⟨hstate, hdelta⟩ := ih vv pL nC (i + 1) _ s2 h
                constructor
                · intro k hk
                  have hne : (Sum.inl r.varId : SKey) ≠ k := hk r (List.mem_cons_self r rest)
                  refine (hstate k (fun r2 h2 => hk r2 (List.mem_cons_of_mem r h2))).trans ?_
                  rw [alookup_cons]
                  exact if_neg fun he => hne he.symm
                · intro n hn
                  have hne : (Sum.inr n : SKey) ≠ Sum.inr (i + 1) := by
                    intro he
                    injection he with he2
                    exact absurd he2 (Nat.ne_of_lt (Nat.lt_succ_of_le hn))
                  refine (hdelta n (Nat.le_succ_of_le hn)).trans ?_
                  rw [alookup_cons]
                  exact if_neg hne
      · cases h

theorem perturbLoop_get (l : List SensRecord) :
    ∀ (vv : EntId → Int) (pL : List Perturbation) (nC i : Nat) (s s2 : Suffixes),
      perturbLoop vv pL nC i l s = .ok s2 →
      ((l.map fun r => r.varId).Nodup) →
      ∀ (j : Nat) (hj : j < l.length),
        ∃ p ptb, pL.get? (l.get ⟨j, hj⟩).listIdx = some p ∧
          resolvePtb p (l.get ⟨j, hj⟩).compIdx = .ok ptb ∧
          alookup s2.sens_state_value_1 (Sum.inl (l.get ⟨j, hj⟩).varId) = some ptb ∧
          alookup s2.DeltaP (Sum.inr (i + j + 1)) = some (vv (l.get ⟨j, hj⟩).varId - ptb) := by
  induction l with
  | nil =>
      intro vv pL nC i s s2 h hnd j hj
      cases hj
  | cons r rest ih =>
      intro vv pL nC i s s2 h hnd j hj
      rw [List.map_cons, List.nodup_cons] at hnd
      simp only [perturbLoop] at h
      split at h
      · cases hp : pL.get? r.listIdx with
        | none => rw [hp] at h; cases h
        | some p =>
            rw [hp] at h
            cases hres : resolvePtb p r.compIdx with
            | error e => simp only [hres] at h; cases h
            | ok ptb =>
                simp only [hres] at h
                cases j with
                | zero =>
                    refine ⟨p, ptb, hp, hres, ?_, ?_⟩
                    · obtain ⟨hstate, _⟩ := perturbLoop_frame rest vv pL nC (i + 1) _ s2 h
                      have hk : ∀ r2 ∈ rest, (Sum.inl r2.varId : SKey) ≠ Sum.inl r.varId := by
                        intro r2 h2 he
                        injection he with he2
                        exact hnd.1 (he2 ▸ List.mem_map_of_mem (fun r => r.varId) h2)
                      refine (hstate (Sum.inl r.varId) hk).trans ?_
                      rw [alookup_cons]
                      simp
                    · obtain ⟨_, hdelta⟩ := perturbLoop_frame rest vv pL nC (i + 1) _ s2 h
                      refine (hdelta (i + 1) (Nat.le_refl (i + 1))).trans ?_
                      rw [alookup_cons]
                      simp
                | succ j2 =>
                    have hj2 : j2 < rest.length := Nat.lt_of_succ_lt_succ hj
                    have := ih vv pL nC (i + 1) _ s2 h hnd.2 j2 hj2
                    have harith : i + 1 + j2 + 1 = i + (j2 + 1) + 1 := by omega
                    rw [harith] at this
                    exact this
      · cases h

theorem checkExisting_frame (m mc : Model) (h : checkExisting m = .ok mc) :
    mc.varVal = m.varVal ∧ mc.paramVal = m.paramVal ∧ mc.objectives = m.objectives ∧
    mc.constraints = m.constraints ∧ mc.suffixes = m.suffixes := by
  simp only [checkExisting] at h
  cases hb : m.block with
  | none =>
      rw [hb] at h
      injection h with h2
      subst h2
      exact ⟨rfl, rfl, rfl, rfl, rfl⟩
  | some b =>
      rw [hb] at h
      cases halk : alookup b.pyattrs "has_replaced_expressions" with
      | none => simp only [halk] at h; cases h
      | some flag =>
          simp only [halk] at h
          cases flag with
          | true => rw [if_pos rfl] at h; cases h
          | false =>
              rw [if_neg (by decide)] at h
              injection h with h2
              subst h2
              exact ⟨rfl, rfl, rfl, rfl, rfl⟩

theorem setup_inv (m : Model) (pl : List Entry) (m2 : Model)
    (h : setup_sensitivity m pl = .ok m2) :
    ∃ mc m1 recs, checkExisting m = .ok mc ∧ processEntries 0 pl mc = .ok (m1, recs) ∧
      m2 = finishSetup pl m1 recs := by
  simp only [setup_sensitivity] at h
  cases hc : checkExisting m with
  | error e => rw [hc] at h; cases h
  | ok mc =>
      simp only [hc] at h
      cases hp : processEntries 0 pl mc with
      | error e => rw [hp] at h; cases h
      | ok q =>
          obtain ⟨m1, recs⟩ := q
          simp only [hp] at h
          injection h with h2
          exact ⟨mc, m1, recs, rfl, hp, h2.symm⟩

theorem finishSetup_fields (pl : List Entry) (m1 : Model) (recs : List SensRecord) :
    (finishSetup pl m1 recs).varFixed =
      writeKeys (recs.map fun r => (r.varId, false)) m1.varFixed ∧
    (finishSetup pl m1 recs).varVal = m1.varVal ∧
    (finishSetup pl m1 recs).paramVal = m1.paramVal ∧
    (finishSetup pl m1 recs).suffixes = stampLoop 0 recs m1.suffixes := by
  simp only [finishSetup]
  split
  · exact ⟨rfl, rfl, rfl, rfl⟩
  · exact ⟨rfl, rfl, rfl, rfl⟩

theorem finishSetup_block (pl : List Entry) (m1 : Model) (recs : List SensRecord) :
    ∃ flag objL conL,
      (finishSetup pl m1 recs).block = some (builtBlock pl recs flag objL conL) := by
  simp only [finishSetup]
  split
  · exact ⟨false, [], none, rfl⟩
  · exact ⟨true, _, _, rfl⟩

theorem subMap_nil (pl : List Entry) (recs : List SensRecord)
    (h : ∀ e ∈ pl, entryIsParam e = false) : subMap pl recs = [] := by
  simp only [subMap]
  rw [List.filterMap_eq_nil_iff]
  intro r _
  cases hg : pl.get? r.listIdx with
  | none => rfl
  | some e =>
      have he := h e (List.get?_mem hg)
      simp [he]

theorem processEntries_badPar (es : List Entry) :
    ∀ (i : Nat) (m : Model), (∃ e ∈ es, entryBadPar e = true) →
      ∃ s, processEntries i es m = .error s := by
  induction es with
  | nil =>
      intro i m h
      rcases h with ⟨e, he, _⟩
      cases he
  | cons e0 rest ih =>
      intro i m h
      cases h1 : processEntry i e0 m with
      | error s => exact ⟨s, by simp only [processEntries, h1]⟩
      | ok p =>
          obtain ⟨m1, ra⟩ := p
          rcases h with ⟨e, he, hbad⟩
          rcases List.mem_cons.mp he with heq | hmem
          · subst heq
            cases e with
            | par mutFlag items =>
                simp only [entryBadPar, Bool.not_eq_true'] at hbad
                subst hbad
                simp only [processEntry] at h1
                cases h1
            | var items => cases hbad
          · rcases ih (i + 1) m1 ⟨e, hmem, hbad⟩ with ⟨s, hs⟩
            exact ⟨s, by simp only [processEntries, h1, hs]⟩

theorem processEntries_badVar (es : List Entry) :
    ∀ (i : Nat) (m : Model), (∃ e ∈ es, entryBadVar m.varFixed e = true) →
      ∃ s, processEntries i es m = .error s := by
  induction es with
  | nil =>
      intro i m h
      rcases h with ⟨e, he, _⟩
      cases he
  | cons e0 rest ih =>
      intro i m h
      cases h1 : processEntry i e0 m with
      | error s => exact ⟨s, by simp only [processEntries, h1]⟩
      | ok p =>
          obtain ⟨m1, ra⟩ := p
          rcases h with ⟨e, he, hbad⟩
          rcases List.mem_cons.mp he with heq | hmem
          · subst heq
            cases e with
            | par mutFlag items => cases hbad
            | var items =>
                simp only [entryBadVar, Bool.not_eq_true'] at hbad
                simp only [processEntry, hbad] at h1
                cases h1
          · have hfix := (processEntry_frame i e0 m m1 ra h1).1
            rcases ih (i + 1) m1 ⟨e, hmem, by rw [hfix]; exact hbad⟩ with ⟨s, hs⟩
            exact ⟨s, by simp only [processEntries, h1, hs]⟩

theorem processEntries_allGood (es : List Entry) :
    ∀ (i : Nat) (m : Model), (∀ e ∈ es, entryGood m.varFixed e = true) →
      ∃ m2 recs, processEntries i es m = .ok (m2, recs) := by
  induction es with
  | nil => intro i m _; exact ⟨m, [], rfl⟩
  | cons e0 rest ih =>
      intro i m h
      have hgood := h e0 (List.mem_cons_self e0 rest)
      have h1 : ∃ m1 ra, processEntry i e0 m = .ok (m1, ra) := by
        cases e0 with
        | par mutFlag items =>
            simp only [entryGood] at hgood
            subst hgood
            exact ⟨_, _, rfl⟩
        | var items =>
            simp only [entryGood] at hgood
            simp only [processEntry, hgood]
            exact ⟨_, _, rfl⟩
      rcases h1 with ⟨m1, ra, h1⟩
      have hfix := (processEntry_frame i e0 m m1 ra h1).1
      rcases ih (i + 1) m1 (fun e he => by
        rw [hfix]; exact h e (List.mem_cons_of_mem e0 he)) with ⟨m2, rb, h2⟩
      exact ⟨m2, ra ++ rb, by simp only [processEntries, h1, h2]⟩

theorem moveLoop_abort (names : List String) :
    ∀ (fs : Fs) (i j : Nat) (hi : i < names.length) (hj : j < names.length), i < j →
      names.Nodup → names.get ⟨i, hi⟩ ∉ fs.cwd → names.get ⟨j, hj⟩ ∈ fs.cwd →
      names.get ⟨j, hj⟩ ∈ (moveLoop fs names).1.cwd := by
  induction names with
  | nil => intro fs i j hi; cases hi
  | cons n rest ih =>
      intro fs i j hi hj hij hnd habs hmem
      rw [List.nodup_cons] at hnd
      cases i with
      | zero =>
          have habs0 : n ∉ fs.cwd := habs
          simp only [moveLoop]
          rw [if_neg habs0]
          exact hmem
      | succ i2 =>
          cases j with
          | zero => cases hij
          | succ j2 =>
              have hi2 : i2 < rest.length := Nat.lt_of_succ_lt_succ hi
              have hj2 : j2 < rest.length := Nat.lt_of_succ_lt_succ hj
              have habs2 : rest.get ⟨i2, hi2⟩ ∉ fs.cwd := habs
              have hmem2 : rest.get ⟨j2, hj2⟩ ∈ fs.cwd := hmem
              show rest.get ⟨j2, hj2⟩ ∈ (moveLoop fs (n :: rest)).1.cwd
              simp only [moveLoop]
              split
              · have hxn : rest.get ⟨j2, hj2⟩ ≠ n := fun he =>
                  hnd.1 (he ▸ List.get_mem rest j2 hj2)
                refine ih { cwd := fs.cwd.erase n, dsdp := n :: fs.dsdp } i2 j2 hi2 hj2
                  (Nat.lt_of_succ_lt_succ hij) hnd.2 ?_
                  ((List.mem_erase_of_ne hxn).mpr hmem2)
                intro hmem3
                exact habs2 (List.mem_of_mem_erase hmem3)
              · exact hmem2

theorem finishSetup_noSub (pl : List Entry) (m1 : Model) (recs : List SensRecord)
    (hsub : subMap pl recs = []) :
    finishSetup pl m1 recs =
      { unfixAll recs m1 with
        suffixes := stampLoop 0 recs m1.suffixes,
        block := some (builtBlock pl recs false [] none) } := by
  simp only [finishSetup, hsub, List.isEmpty_nil, if_true]

/-- C1: claimed, rewriting a ranged constraint installs (lower vs body) and
(body vs upper) with the conjunction equivalent to the original. The code at
source lines 336-339 instead installs (new_lower <= new_upper) and
(new_upper >= new_body), although its own comments announce a lower-bound and
an upper-bound constraint: on the ranged constraint 1 <= p <= 10 with p
designated, the assignment giving the substitute variable the value 0
satisfies both installed constraints while violating the substituted original
constraint, so the installed pair is not equivalent to the original. -/
theorem ranged_rewrite_drops_lower_bound :
    (blockOf (setup_sensitivity demoRangedM demoRangedPl)).constList =
      some [{ lower := some (Expr.const 1), body := Expr.const 10,
              upper := none, equality := false },
            { lower := none, body := Expr.varRef (Sum.inr (0, Option.none)),
              upper := some (Expr.const 10), equality := false }] ∧
    ShadowCon.satB pvZero vvLow
      { lower := some (Expr.const 1), body := Expr.const 10,
        upper := none, equality := false } = true ∧
    ShadowCon.satB pvZero vvLow
      { lower := none, body := Expr.varRef (Sum.inr (0, Option.none)),
        upper := some (Expr.const 10), equality := false } = true ∧
    Constr.satB pvZero vvLow (substCon demoRangedSub demoRangedCon) = false :=
  ⟨rfl, rfl, rfl, rfl⟩

/-- C2: claimed, a second setup_sensitivity call on a model whose block has
not substituted expressions tears the block down, re-fixes its variables and
rebuilds without raising. The code raises instead: the check at source line
198 probes the attribute name has_replaced_expressions while the attribute set
at source line 215 is _has_replaced_expressions, so the teardown branch never
runs for a block that setup built (second and third conjunct exhibit the name
mismatch on the demo block). -/
theorem rebuild_unsubstituted_block_raises :
    setup_sensitivity demoUnsubM [Entry.var [(Option.none, 0)]] = .error reuseMsg ∧
    alookup (demoUnsubM.block.getD defaultBlock).pyattrs "has_replaced_expressions" = none ∧
    alookup (demoUnsubM.block.getD defaultBlock).pyattrs "_has_replaced_expressions" =
      some false :=
  ⟨rfl, rfl, rfl⟩

/-- C3 counterexample: with the kaug strategy and a perturbation list longer
than the designated-component list, the run does fail with the length
mismatch error, but only after the baseline ipopt solve and the k_aug solve
have been invoked (the recorded solver trace is nonempty), contradicting the
claim that no external solver is invoked for either strategy. -/
theorem kaug_solves_before_length_check :
    (sensitivity_calculation "kaug" demoMismatchM demoMismatchPl demoMismatchPtb).1 =
      ["ipopt", "k_aug"] ∧
    (sensitivity_calculation "kaug" demoMismatchM demoMismatchPl demoMismatchPtb).2 =
      Except.error lengthMsg :=
  ⟨rfl, rfl⟩

/-- C3 amended: when setup succeeds and the perturbation list length differs
from the designated-component list length, the run fails with the length
mismatch error before the sensitivity solver is invoked; under sipopt no
solver at all has been invoked, while under kaug the baseline ipopt solve and
the k_aug solve have already run and only the dot_sens solve is averted. -/
theorem length_mismatch_error_timing (m : Model) (pl : List Entry)
    (ptb : List Perturbation) (m1 : Model)
    (hs : setup_sensitivity m pl = .ok m1) (hlen : pl.length ≠ ptb.length) :
    sensitivity_calculation "sipopt" m pl ptb = ([], .error lengthMsg) ∧
    sensitivity_calculation "kaug" m pl ptb = (["ipopt", "k_aug"], .error lengthMsg) := by
  obtain ⟨mc, mm1, recs, hc, hp, hfin⟩ := setup_inv m pl m1 hs
  obtain ⟨flag, objL, conL, hblk⟩ := finishSetup_block pl mm1 recs
  have hperturb : perturb_parameters m1 ptb = .error lengthMsg := by
    rw [hfin]
    simp only [perturb_parameters, hblk]
    rw [if_pos]
    show pl.length ≠ ptb.length
    exact hlen
  constructor
  · simp only [sensitivity_calculation, hs]
    rw [if_neg (by decide : ¬("sipopt" = "kaug"))]
    simp only [hperturb]
  · simp only [sensitivity_calculation, hs]
    simp only [if_true]
    simp only [hperturb]

/-- C3 amended witness at the concrete mismatch demo. -/
theorem length_mismatch_error_timing_witness :
    sensitivity_calculation "sipopt" demoMismatchM demoMismatchPl demoMismatchPtb =
      ([], .error lengthMsg) ∧
    sensitivity_calculation "kaug" demoMismatchM demoMismatchPl demoMismatchPtb =
      (["ipopt", "k_aug"], .error lengthMsg) :=
  length_mismatch_error_timing demoMismatchM demoMismatchPl demoMismatchPtb
    (okOr emptyModel (setup_sensitivity demoMismatchM demoMismatchPl)) rfl (by decide)

/-- C4: for the record at 0-based position j of the block's record list, a
successful perturb_parameters writes the free entity's current value minus the
resolved perturbation target into DeltaP keyed by the record's pinning
constraint (the (j+1)-st paramConst entry), and writes the resolved target
itself into sens_state_value_1 keyed by the record's free variable. -/
theorem perturb_writes_delta_and_target (m : Model) (pL : List Perturbation) (m2 : Model)
    (b : SensBlock) (hb : m.block = some b)
    (h : perturb_parameters m pL = .ok m2)
    (hnd : (b.sens_data_list.map fun r => r.varId).Nodup)
    (j : Nat) (hj : j < b.sens_data_list.length)
    (p : Perturbation) (ptb : Int)
    (hp : pL.get? ((b.sens_data_list.get ⟨j, hj⟩).listIdx) = some p)
    (hres : resolvePtb p ((b.sens_data_list.get ⟨j, hj⟩).compIdx) = .ok ptb) :
    alookup m2.suffixes.DeltaP (Sum.inr (j + 1)) =
      some (m.varVal (b.sens_data_list.get ⟨j, hj⟩).varId - ptb) ∧
    alookup m2.suffixes.sens_state_value_1
        (Sum.inl (b.sens_data_list.get ⟨j, hj⟩).varId) = some ptb := by
  simp only [perturb_parameters, hb] at h
  split at h
  · cases h
  · cases hloop : perturbLoop m.varVal pL b.paramConst.length 0 b.sens_data_list m.suffixes with
    | error e => rw [hloop] at h; cases h
    | ok s2 =>
        rw [hloop] at h
        injection h with h2
        subst h2
        obtain ⟨p2, ptb2, hp2, hres2, hst, hdp⟩ :=
          perturbLoop_get b.sens_data_list m.varVal pL b.paramConst.length 0 m.suffixes s2
            hloop hnd j hj
        rw [hp] at hp2
        injection hp2 with hpe
        subst hpe
        rw [hres] at hres2
        injection hres2 with hre
        subst hre
        simp only [Nat.zero_add] at hdp
        exact ⟨hdp, hst⟩

/-- C4 witness: perturbing the demo model, the record of the designated
parameter p (position 0, current substitute value 5, target 7) gets
DeltaP = 5 - 7 and sens_state_value_1 = 7. -/
theorem perturb_writes_delta_and_target_witness :
    alookup (okOr emptyModel (perturb_parameters demoSetup demoPtb)).suffixes.DeltaP
        (Sum.inr 1) =
      some (demoSetup.varVal (demoBlock.sens_data_list.get ⟨0, by decide⟩).varId - 7) ∧
    alookup (okOr emptyModel (perturb_parameters demoSetup demoPtb)).suffixes.sens_state_value_1
        (Sum.inl (demoBlock.sens_data_list.get ⟨0, by decide⟩).varId) = some 7 :=
  perturb_writes_delta_and_target demoSetup demoPtb
    (okOr emptyModel (perturb_parameters demoSetup demoPtb)) demoBlock rfl rfl
    (by decide) 0 (by decide) (Perturbation.scalar 7) 7 rfl rfl

/-- C5: once a sensitivity block carries the replaced-expressions flag set to
true, any further setup_sensitivity call raises the reuse error; the raise at
source line 210 happens before any mutation of the instance, so the block is
left in place. -/
theorem setup_after_substitution_raises (m : Model) (pl : List Entry) (b : SensBlock)
    (hb : m.block = some b)
    (hflag : b.pyattrs = [("_has_replaced_expressions", true)]) :
    setup_sensitivity m pl = .error reuseMsg := by
  simp only [setup_sensitivity, checkExisting, hb, hflag]
  rw [alookup_cons]
  rw [if_neg (by decide : ¬("has_replaced_expressions" = "_has_replaced_expressions"))]
  rfl

/-- C5 witness at a concrete substituted block. -/
theorem setup_after_substitution_raises_witness :
    setup_sensitivity demoSubbedM [] = .error reuseMsg :=
  setup_after_substitution_raises demoSubbedM [] demoSubbedB rfl rfl

/-- C6: every record of a freshly set-up block has its free entity unfixed,
and the created entity holds the current value of its original counterpart:
for a designated parameter the created variable (right-injection id) holds the
parameter's value, for a designated fixed variable the created parameter holds
the variable's value. -/
theorem created_entities_inherit_values (m : Model) (pl : List Entry) (m2 : Model)
    (h : setup_sensitivity m pl = .ok m2) (b : SensBlock) (hb : m2.block = some b)
    (hnd : (b.sens_data_list.map fun r => (r.listIdx, r.compIdx)).Nodup)
    (r : SensRecord) (hr : r ∈ b.sens_data_list) :
    m2.varFixed r.varId = false ∧
    ((r.varId = Sum.inr (r.listIdx, r.compIdx) ∧ m2.varVal r.varId = m.paramVal r.paramId) ∨
     (r.paramId = Sum.inr (r.listIdx, r.compIdx) ∧ m2.paramVal r.paramId = m.varVal r.varId)) := by
  obtain ⟨mc, m1, recs, hc, hp, hfin⟩ := setup_inv m pl m2 h
  obtain ⟨flag, objL, conL, hblk⟩ := finishSetup_block pl m1 recs
  rw [hfin, hblk] at hb
  injection hb with hb2
  have hrecs : b.sens_data_list = recs := by rw [← hb2]; rfl
  rw [hrecs] at hr hnd
  obtain ⟨ff, fvv, fpv, _⟩ := finishSetup_fields pl m1 recs
  obtain ⟨ce1, ce2, _, _, _⟩ := checkExisting_frame m mc hc
  have hvals := processEntries_values pl 0 mc m1 recs hp hnd r hr
  constructor
  · rw [hfin, ff]
    refine writeKeys_constVal _ _ false r.varId ?_ ?_
    · intro kv hkv
      rcases List.mem_map.mp hkv with ⟨r2, _, hr2⟩
      rw [← hr2]
    · have hm : r.varId ∈ recs.map (fun r => r.varId) := List.mem_map_of_mem _ hr
      simpa [List.map_map, Function.comp] using hm
  · rcases hvals with ⟨h1, _, h3⟩ | ⟨h1, _, h3⟩
    · left
      refine ⟨h1, ?_⟩
      rw [hfin, fvv, h3, ce2]
    · right
      refine ⟨h1, ?_⟩
      rw [hfin, fpv, h3, ce1]

/-- C6 witness at the record of the designated fixed variable y of the demo
model: y ends up unfixed and the created parameter holds y's value. -/
theorem created_entities_inherit_values_witness :
    demoSetup.varFixed demoRec1.varId = false ∧
    ((demoRec1.varId = Sum.inr (demoRec1.listIdx, demoRec1.compIdx) ∧
        demoSetup.varVal demoRec1.varId = demoM.paramVal demoRec1.paramId) ∨
     (demoRec1.paramId = Sum.inr (demoRec1.listIdx, demoRec1.compIdx) ∧
        demoSetup.paramVal demoRec1.paramId = demoM.varVal demoRec1.varId)) :=
  created_entities_inherit_values demoM demoPl demoSetup rfl demoBlock rfl
    (by decide) demoRec1 (by decide)

/-- C7: when every designated entry is a variable, setup performs no
expression rewriting: objectives and constraints of the model are left
untouched (in particular none is deactivated), no shadow constraint list is
created, no shadow objective is installed and the replaced-expressions flag
stays false. -/
theorem all_var_list_skips_rewriting (m : Model) (pl : List Entry) (m2 : Model)
    (hall : ∀ e ∈ pl, entryIsParam e = false)
    (h : setup_sensitivity m pl = .ok m2) :
    m2.objectives = m.objectives ∧ m2.constraints = m.constraints ∧
    ∃ b, m2.block = some b ∧ b.constList = none ∧ b.objList = [] ∧
      alookup b.pyattrs "_has_replaced_expressions" = some false := by
  obtain ⟨mc, m1, recs, hc, hp, hfin⟩ := setup_inv m pl m2 h
  have hsub : subMap pl recs = [] := subMap_nil pl recs hall
  obtain ⟨_, _, co, cc, _⟩ := checkExisting_frame m mc hc
  obtain ⟨_, po, pc, _, _, _, _, _, _⟩ := processEntries_frame pl 0 mc m1 recs hp
  rw [hfin, finishSetup_noSub pl m1 recs hsub]
  refine ⟨?_, ?_, builtBlock pl recs false [] none, rfl, rfl, rfl, rfl⟩
  · exact po.trans co
  · exact pc.trans cc

/-- C7 witness: designating only the fixed variable y leaves objectives and
constraints untouched and creates no shadow constraint list. -/
theorem all_var_list_skips_rewriting_witness :
    (okOr emptyModel (setup_sensitivity demoM [Entry.var [(Option.none, 1)]])).constraints =
      demoM.constraints ∧
    ∃ b, (okOr emptyModel (setup_sensitivity demoM [Entry.var [(Option.none, 1)]])).block =
        some b ∧ b.constList = none ∧ b.objList = [] ∧
      alookup b.pyattrs "_has_replaced_expressions" = some false := by
  have h := all_var_list_skips_rewriting demoM [Entry.var [(Option.none, 1)]]
    (okOr emptyModel (setup_sensitivity demoM [Entry.var [(Option.none, 1)]]))
    (by decide) rfl
  exact ⟨h.2.1, h.2.2⟩

/-- C8: setup_sensitivity fails whenever a designated parameter entry is not
mutable, fails whenever some element of a designated variable entry is not
fixed, and accepts mutable parameters and fully fixed variables without
error (on a model without a pre-existing block). -/
theorem entry_validation (m : Model) (pl : List Entry) (hm : m.block = none) :
    ((∃ e ∈ pl, entryBadPar e = true) → isErr (setup_sensitivity m pl) = true) ∧
    ((∃ e ∈ pl, entryBadVar m.varFixed e = true) → isErr (setup_sensitivity m pl) = true) ∧
    ((∀ e ∈ pl, entryGood m.varFixed e = true) → isErr (setup_sensitivity m pl) = false) := by
  have hce : checkExisting m = .ok m := by simp only [checkExisting, hm]
  refine ⟨?_, ?_, ?_⟩
  · intro hbad
    rcases processEntries_badPar pl 0 m hbad with ⟨s, hs⟩
    simp only [setup_sensitivity, hce, hs, isErr]
  · intro hbad
    rcases processEntries_badVar pl 0 m hbad with ⟨s, hs⟩
    simp only [setup_sensitivity, hce, hs, isErr]
  · intro hgood
    rcases processEntries_allGood pl 0 m hgood with ⟨m2, recs, hok⟩
    simp only [setup_sensitivity, hce, hok, isErr]

/-- C8 witness: an immutable designated parameter is rejected; the demo list
(mutable parameter and fixed variable) is accepted. -/
theorem entry_validation_witness :
    isErr (setup_sensitivity demoM demoBadPl) = true ∧
    isErr (setup_sensitivity demoM demoPl) = false :=
  ⟨(entry_validation demoM demoBadPl rfl).1
      ⟨Entry.par false [(Option.none, 0)], by decide, rfl⟩,
   (entry_validation demoM demoPl rfl).2.2 (by decide)⟩

/-- C9 counterexample: the claim says the sens_init_constr slot is stamped
for each record's free entity; on the demo model it is instead keyed by the
pinning constraint: the lookup at the free entity of the first record is
empty while the lookup at its pinning constraint holds the index. -/
theorem init_constr_not_keyed_by_free_entity :
    alookup demoSetup.suffixes.sens_init_constr (Sum.inl demoRec0.varId) = none ∧
    alookup demoSetup.suffixes.sens_init_constr (Sum.inr 1) = some 1 :=
  ⟨rfl, rfl⟩

/-- C9 amended: setup appends exactly one pinning constraint
free - parameter == 0 per record in record order, stamps sens_state_0 and
sens_state_1 keyed by each record's free entity, and stamps sens_init_constr
and dcdp keyed by the record's pinning constraint, all with the record's
1-based position. -/
theorem pinning_and_stamping (m : Model) (pl : List Entry) (m2 : Model)
    (h : setup_sensitivity m pl = .ok m2) (b : SensBlock) (hb : m2.block = some b)
    (hnd : (b.sens_data_list.map fun r => r.varId).Nodup)
    (j : Nat) (hj : j < b.sens_data_list.length) :
    b.paramConst = b.sens_data_list.map
        (fun r => Expr.sub (Expr.varRef r.varId) (Expr.paramRef r.paramId)) ∧
    alookup m2.suffixes.sens_state_0
        (Sum.inl (b.sens_data_list.get ⟨j, hj⟩).varId) = some (j + 1) ∧
    alookup m2.suffixes.sens_state_1
        (Sum.inl (b.sens_data_list.get ⟨j, hj⟩).varId) = some (j + 1) ∧
    alookup m2.suffixes.sens_init_constr (Sum.inr (j + 1)) = some (j + 1) ∧
    alookup m2.suffixes.dcdp (Sum.inr (j + 1)) = some (j + 1) := by
  obtain ⟨mc, m1, recs, hc, hp, hfin⟩ := setup_inv m pl m2 h
  obtain ⟨flag, objL, conL, hblk⟩ := finishSetup_block pl m1 recs
  rw [hfin, hblk] at hb
  injection hb with hb2
  have hrecs : b.sens_data_list = recs := by rw [← hb2]; rfl
  have hpc : b.paramConst = pins recs := by rw [← hb2]; rfl
  obtain ⟨_, _, _, fsfx⟩ := finishSetup_fields pl m1 recs
  have hsfx : m2.suffixes = stampLoop 0 b.sens_data_list m1.suffixes := by
    rw [hfin, fsfx, hrecs]
  have hst := stampLoop_get b.sens_data_list 0 m1.suffixes j hj hnd
  simp only [Nat.zero_add] at hst
  rw [hsfx]
  refine ⟨?_, hst.1, hst.2.1, hst.2.2.1, hst.2.2.2⟩
  rw [hpc, hrecs]
  rfl

/-- C9 amended witness at the first record of the demo model. -/
theorem pinning_and_stamping_witness :
    demoBlock.paramConst = demoBlock.sens_data_list.map
        (fun r => Expr.sub (Expr.varRef r.varId) (Expr.paramRef r.paramId)) ∧
    alookup demoSetup.suffixes.sens_state_0
        (Sum.inl (demoBlock.sens_data_list.get ⟨0, by decide⟩).varId) = some 1 ∧
    alookup demoSetup.suffixes.sens_state_1
        (Sum.inl (demoBlock.sens_data_list.get ⟨0, by decide⟩).varId) = some 1 ∧
    alookup demoSetup.suffixes.sens_init_constr (Sum.inr 1) = some 1 ∧
    alookup demoSetup.suffixes.dcdp (Sum.inr 1) = some 1 :=
  pinning_and_stamping demoM demoPl demoSetup rfl demoBlock rfl (by decide) 0 (by decide)

/-- C10: the k_aug artifact relocation moves the nine fixed-named files in
one fixed order inside a single exception-handled region: if the file at
position i is absent (its move raises an OSError), every file after it in the
order stays where it was, present or not, and the failure is swallowed (the
relocation is total and returns the partially moved state). -/
theorem artifact_moves_abort_after_failure (fs : Fs) (i : Nat)
    (hi : i < dsdp_files.length) (habs : dsdp_files.get ⟨i, hi⟩ ∉ fs.cwd) :
    dsdp_files.length = 9 ∧
    ∀ (j : Nat) (hj : j < dsdp_files.length), i < j →
      dsdp_files.get ⟨j, hj⟩ ∈ fs.cwd →
      dsdp_files.get ⟨j, hj⟩ ∈ (relocateArtifacts fs).cwd := by
  refine ⟨rfl, ?_⟩
  intro j hj hij hmem
  exact moveLoop_abort dsdp_files fs i j hi hj hij (by decide) habs hmem

/-- C10 witness: with the first artifact file absent, a later file that does
exist is still in the working directory after the relocation. -/
theorem artifact_moves_abort_after_failure_witness :
    dsdp_files.length = 9 ∧ "col_row.nl" ∈ (relocateArtifacts demoFs).cwd := by
  have h := artifact_moves_abort_after_failure demoFs 0 (by decide) (by decide)
  exact ⟨h.1, h.2 1 (by decide) (by decide) (by decide)⟩

end SensTb
